import Mathlib

/-!
Verification of the connection-identifier storage engine of
`src/net/third_party/quiche/src/quic/core/quic_connection_id.cc`
(class `quic::QuicConnectionId`).

Shallow embedding conventions:
* A byte is a `Nat` (in C++ an unsigned `char`, so `< 256`; no operation here
  performs byte arithmetic, and `memcmp` compares bytes as unsigned values, so
  `Nat` order and equality agree with the C++ semantics on these values).
* The runtime flag `GetQuicRestartFlag(quic_use_allocated_connection_ids)` is
  the `Strategy` parameter passed to every operation, mirroring the per-call
  flag read in the source: `legacy` is flag-off (fixed inline buffer of MAX
  bytes), `hybrid` is flag-on (8-byte inline buffer or heap block).
* `buf` is the contents of whichever storage member of the C++ union is
  active (`data_` under legacy, `data_short_` or `data_long_` under hybrid);
  which member is active is determined, as in the source, by the strategy and
  by `length_` relative to `sizeof(data_short_)`.
* Uninitialized storage (fresh `malloc`/`realloc` tails, the bytes of
  `data_short_` beyond a short copy) is modelled by an explicit `junk`
  parameter, universally quantified in the theorems, so "unspecified bytes"
  are genuinely arbitrary.
* 64-bit values are `Nat`s below `2 ^ 64`; the host is little-endian, so
  `QuicEndian::NetToHost64` is a byte reversal.
-/

namespace QuicSpec

/-- The process-wide storage strategy:
`legacy` models `GetQuicRestartFlag(quic_use_allocated_connection_ids) == false`,
`hybrid` models the flag being true. -/
inductive Strategy where
  | legacy
  | hybrid
deriving DecidableEq

/-- Modelled from the spec: `kQuicMaxConnectionIdLength` is declared in
`quic_connection_id.h`, which is not under `src/`; the spec (§3) gives MAX as
"a small fixed bound, e.g. 20", and the `.cc` static_asserts only bound it
(at most 24, at least 8). -/
def kQuicMaxConnectionIdLength : Nat := 20

/-- Pinned by the `.cc` itself:
`static_assert(kQuicDefaultConnectionIdLength == sizeof(uint64_t))`. -/
def kQuicDefaultConnectionIdLength : Nat := 8

/-- Modelled from the spec: `sizeof(data_short_)` comes from the header, which
is not under `src/`; the spec (§3, §4.1) gives the inline capacity as
"e.g. 8 bytes". -/
def shortCapacity : Nat := 8

/-- The observable state of a `QuicConnectionId`: the `length_` field
(a `uint8_t`) and the contents of the active storage buffer. -/
structure QuicConnectionId where
  length_ : Nat
  buf : List Nat
deriving DecidableEq

/-- Size of the active storage for a given strategy and length: the fixed
`data_` array under legacy; `data_short_` or a heap block of exactly `len`
bytes under hybrid, split at `sizeof(data_short_)` as in the source. -/
def capacity (s : Strategy) (len : Nat) : Nat :=
  match s with
  | .legacy => kQuicMaxConnectionIdLength
  | .hybrid => if len ≤ shortCapacity then shortCapacity else len

/-- Lines 28-31 of the constructor: the clamp applied to an oversize request
before any storage is touched. -/
def clampLen (L : Nat) : Nat :=
  if L > kQuicMaxConnectionIdLength then kQuicMaxConnectionIdLength else L

/-- Lines 32-47 of the constructor, after the clamp: `length_` is assigned and
exactly `length` bytes of `data` are copied into the storage the active
strategy selects.  `junk` models the indeterminate contents of storage bytes
the constructor does not write (including the whole buffer when
`length == 0`, where the source returns without touching the union). -/
def constructId (s : Strategy) (data : List Nat) (length : Nat) (junk : Nat) :
    QuicConnectionId :=
  if length = 0 then
    ⟨0, List.replicate (capacity s 0) junk⟩
  else
    match s with
    | .legacy =>
        ⟨length,
          data.take length ++ List.replicate (kQuicMaxConnectionIdLength - length) junk⟩
    | .hybrid =>
        if length ≤ shortCapacity then
          ⟨length, data.take length ++ List.replicate (shortCapacity - length) junk⟩
        else
          ⟨length, data.take length⟩

/-- Embeds `QuicConnectionId::QuicConnectionId(const char* data, uint8_t
length)`, lines 24-47: clamp an oversize request (emitting the `QUIC_BUG`
diagnostic, returned as the second component), then fill storage. -/
def construct (s : Strategy) (data : List Nat) (length : Nat) (junk : Nat) :
    QuicConnectionId × Bool :=
  (constructId s data (clampLen length) junk,
    decide (length > kQuicMaxConnectionIdLength))

/-- Embeds `QuicConnectionId::data()`, lines 68-76: a pointer to the active
storage.  In this embedding `buf` already is the active storage's contents
under either strategy, so the three branches of the source coincide. -/
def data (s : Strategy) (x : QuicConnectionId) : List Nat :=
  match s with
  | .legacy => x.buf
  | .hybrid => x.buf

/-- The `length_`-byte view callers read through `data()`. -/
def dataView (s : Strategy) (x : QuicConnectionId) : List Nat :=
  (data s x).take x.length_

/-- Embeds `QuicConnectionId::length()`, lines 88-90. -/
def length (x : QuicConnectionId) : Nat :=
  x.length_

/-- Embeds `QuicConnectionId::set_length(uint8_t length)`, lines 92-118.  Under
hybrid, the four branches are the four storage transitions; `realloc`
preserves `min` of the old and new block sizes, and the bytes of the new
storage beyond what the source copies are `junk`.  Under legacy only
`length_` is assigned. -/
def set_length (s : Strategy) (x : QuicConnectionId) (length : Nat) (junk : Nat) :
    QuicConnectionId :=
  match s with
  | .legacy => ⟨length, x.buf⟩
  | .hybrid =>
    if length > shortCapacity then
      if x.length_ ≤ shortCapacity then
        -- copy data from data_short_ to a fresh malloc-ed data_long_
        ⟨length, x.buf.take x.length_ ++ List.replicate (length - x.length_) junk⟩
      else
        -- realloc data_long_ from x.buf.length to length bytes
        ⟨length, x.buf.take length ++ List.replicate (length - x.buf.length) junk⟩
    else
      if x.length_ > shortCapacity then
        -- copy the first `length` bytes of data_long_ into data_short_, free
        ⟨length, x.buf.take length ++ List.replicate (shortCapacity - length) junk⟩
      else
        ⟨length, x.buf⟩

/-- Embeds the copy constructor, lines 59-60:
`QuicConnectionId(other.data(), other.length())`. -/
def copy (s : Strategy) (x : QuicConnectionId) (junk : Nat) : QuicConnectionId :=
  (construct s (data s x) x.length_ junk).fst

/-- Embeds `operator=`, lines 62-66: `set_length(other.length())` then
`memcpy(mutable_data(), other.data(), length_)`. -/
def assign (s : Strategy) (x y : QuicConnectionId) (junk : Nat) : QuicConnectionId :=
  let z := set_length s x y.length_ junk
  ⟨z.length_, (data s y).take z.length_ ++ z.buf.drop z.length_⟩

/-- Embeds `QuicConnectionId::IsEmpty()`, lines 120-122. -/
def IsEmpty (x : QuicConnectionId) : Bool :=
  x.length_ == 0

/-- Little-endian value of a byte list: byte 0 is least significant, as laid
out in memory when `memcpy` fills a `uint64_t` on a little-endian host. -/
def leWord64 (bs : List Nat) : Nat :=
  bs.foldr (fun b acc => acc * 256 + b) 0

/-- Byte `i` (little-endian position) of the 64-bit value `n`. -/
def byteAt (n i : Nat) : Nat :=
  n / 256 ^ i % 256

/-- Embeds `QuicEndian::NetToHost64` on a little-endian host: reverse the eight
bytes of a 64-bit value. -/
def netToHost64 (n : Nat) : Nat :=
  (List.range 8).foldl (fun acc i => acc * 256 + byteAt n i) 0

/-- Embeds `QuicConnectionId::Hash()`, lines 124-133: zero three 64-bit words,
`memcpy` the `length_` bytes of `data()` over them, then
`NetToHost64(kQuicDefaultConnectionIdLength ^ length_ ^ w0 ^ w1 ^ w2)`. -/
def Hash (s : Strategy) (x : QuicConnectionId) : Nat :=
  let padded := (data s x).take x.length_ ++ List.replicate (24 - x.length_) 0
  let w0 := leWord64 (padded.take 8)
  let w1 := leWord64 ((padded.drop 8).take 8)
  let w2 := leWord64 ((padded.drop 16).take 8)
  netToHost64 ((((kQuicDefaultConnectionIdLength.xor x.length_).xor w0).xor w1).xor w2)

/-- The hash formula exactly as the spec words it (§4.1), over an abstract
`(bytes, length)` pair: zero-pad the bytes into a three-word (24-byte)
buffer, XOR the three words with the length and the fixed default-length
constant, and view the result as a big-endian 64-bit value converted to host
order. -/
def hashFormula (bytes : List Nat) (len : Nat) : Nat :=
  let padded := bytes ++ List.replicate (24 - bytes.length) 0
  let w0 := leWord64 (padded.take 8)
  let w1 := leWord64 ((padded.drop 8).take 8)
  let w2 := leWord64 ((padded.drop 16).take 8)
  netToHost64 ((((kQuicDefaultConnectionIdLength.xor len).xor w0).xor w1).xor w2)

/-- The value of a byte list read as one big-endian integer (what
"big-endian-to-host reinterpretation" of the raw bytes denotes). -/
def beHost64 (bs : List Nat) : Nat :=
  bs.foldl (fun acc b => acc * 256 + b) 0

/-- Lowercase hexadecimal digit for `n < 16`. -/
def hexDigit (n : Nat) : Char :=
  if n < 10 then Char.ofNat (48 + n) else Char.ofNat (87 + n)

/-- Modelled from the spec: `QuicTextUtils::HexEncode` lives outside `src/`;
per the spec (§4.1) it is the lowercase hexadecimal encoding of the raw
bytes, two hex digits per byte, no separators. -/
def hexEncode (bs : List Nat) : String :=
  String.mk (bs.foldr (fun b acc => hexDigit (b / 16) :: hexDigit (b % 16) :: acc) [])

/-- Embeds `QuicConnectionId::ToString()`, lines 135-140. -/
def ToString (s : Strategy) (x : QuicConnectionId) : String :=
  if IsEmpty x then "0" else hexEncode ((data s x).take x.length_)

/-- The `< 0` outcome of `memcmp` on unsigned bytes: strict lexicographic
comparison, where running out of bytes first counts as smaller (relevant only
when the compared prefixes have equal byte counts, as at every call site). -/
def bytesLt : List Nat → List Nat → Bool
  | [], [] => false
  | [], _ :: _ => true
  | _ :: _, [] => false
  | a :: as, b :: bs => if a < b then true else if b < a then false else bytesLt as bs

/-- Embeds `operator==`, lines 147-149:
`length_ == v.length_ && memcmp(data(), v.data(), length_) == 0`. -/
def beq (s : Strategy) (x y : QuicConnectionId) : Bool :=
  x.length_ == y.length_ &&
    ((data s x).take x.length_ == (data s y).take x.length_)

/-- Embeds `operator!=`, lines 151-153: `!(v == *this)` (note the swapped order). -/
def ne (s : Strategy) (x y : QuicConnectionId) : Bool :=
  !(beq s y x)

/-- Embeds `operator<`, lines 155-163: compare `length_` first, then
`memcmp(data(), v.data(), length_) < 0`. -/
def lt (s : Strategy) (x y : QuicConnectionId) : Bool :=
  if x.length_ < y.length_ then true
  else if y.length_ < x.length_ then false
  else bytesLt ((data s x).take x.length_) ((data s y).take x.length_)

/-- Well-formedness of a reachable identifier state: the length respects MAX
and the active storage has exactly the capacity the source maintains for it. -/
def WF (s : Strategy) (x : QuicConnectionId) : Prop :=
  x.length_ ≤ kQuicMaxConnectionIdLength ∧ x.buf.length = capacity s x.length_

instance (s : Strategy) (x : QuicConnectionId) : Decidable (WF s x) :=
  inferInstanceAs (Decidable (_ ∧ _))

/-- The eight bytes `0x01 .. 0x08` from the spec's scenario. -/
def cid8bytes : List Nat := [1, 2, 3, 4, 5, 6, 7, 8]

/-- The identifier built from `cid8bytes` under the hybrid strategy. -/
def cidSample : QuicConnectionId := (construct .hybrid cid8bytes 8 0).fst

/-- A length-3 identifier. -/
def cid3 : QuicConnectionId := (construct .hybrid [250, 251, 252] 3 0).fst

/-- A length-5 identifier. -/
def cid5 : QuicConnectionId := (construct .hybrid [1, 1, 1, 1, 1] 5 0).fst

/-- The empty identifier `construct(null, 0)`. -/
def cidEmpty : QuicConnectionId := (construct .hybrid [] 0 0).fst

/-- A 12-byte buffer, longer than the inline capacity. -/
def cid12bytes : List Nat := [9, 8, 7, 6, 5, 4, 3, 2, 1, 0, 11, 12]

/-- A 12-byte identifier, heap-allocated under the hybrid strategy. -/
def cid12 : QuicConnectionId := (construct .hybrid cid12bytes 12 0).fst

/-- A 25-byte buffer, longer than MAX. -/
def d25 : List Nat := List.replicate 25 65

/-! ### Helper lemmas -/

/-- Both branches of `data()` return the active storage's contents. -/
theorem data_eq (s : Strategy) (x : QuicConnectionId) : data s x = x.buf := by
  cases s <;> rfl

/-- The clamp computes `min` with MAX. -/
theorem clampLen_eq (L : Nat) : clampLen L = min L kQuicMaxConnectionIdLength := by
  unfold clampLen
  split <;> omega

/-- The active storage always holds at least `len` bytes when `len ≤ MAX`. -/
theorem length_le_capacity (s : Strategy) (len : Nat)
    (h : len ≤ kQuicMaxConnectionIdLength) : len ≤ capacity s len := by
  cases s with
  | legacy => exact h
  | hybrid =>
      simp only [capacity]
      split <;> omega

/-- On a well-formed state, `data()` really exposes `length_` bytes. -/
theorem dataView_length (s : Strategy) (x : QuicConnectionId) (h : WF s x) :
    (dataView s x).length = x.length_ := by
  obtain ⟨h1, h2⟩ := h
  have hc := length_le_capacity s x.length_ h1
  simp only [dataView, data_eq, List.length_take]
  omega

/-- The post-clamp constructor stores the requested length. -/
theorem constructId_length (s : Strategy) (d : List Nat) (L junk : Nat) :
    (constructId s d L junk).length_ = L := by
  unfold constructId
  split
  · simp_all
  · cases s with
    | legacy => rfl
    | hybrid => dsimp only; split <;> rfl

/-- The post-clamp constructor copies exactly the first `L` bytes of the
input buffer, whatever the strategy and storage mode. -/
theorem constructId_dataView (s : Strategy) (d : List Nat) (L junk : Nat)
    (h : L ≤ d.length) :
    dataView s (constructId s d L junk) = d.take L := by
  have hlen : (d.take L).length = L := by
    simp only [List.length_take]
    omega
  unfold constructId
  split
  · simp_all [dataView, data_eq]
  · cases s with
    | legacy =>
        simp only [dataView, data_eq, List.take_append_eq_append_take, hlen,
          List.take_take, Nat.min_self, Nat.sub_self, List.take_zero, List.append_nil]
    | hybrid =>
        dsimp only
        split <;>
          simp only [dataView, data_eq, List.take_append_eq_append_take, hlen,
            List.take_take, Nat.min_self, Nat.sub_self, List.take_zero, List.append_nil]

/-- At exactly MAX bytes the junk tail is empty, so no hypothesis on the
input buffer is needed. -/
theorem constructId_dataView_max (s : Strategy) (d : List Nat) (junk : Nat) :
    dataView s (constructId s d kQuicMaxConnectionIdLength junk) =
      d.take kQuicMaxConnectionIdLength := by
  unfold constructId kQuicMaxConnectionIdLength shortCapacity
  cases s <;>
    simp [dataView, data_eq, List.take_take]

/-- The post-clamp constructor establishes the storage invariant. -/
theorem constructId_WF (s : Strategy) (d : List Nat) (L junk : Nat)
    (h : L ≤ d.length) (hmax : L ≤ kQuicMaxConnectionIdLength) :
    WF s (constructId s d L junk) := by
  have hlen : (d.take L).length = L := by
    simp only [List.length_take]
    omega
  constructor
  · rw [constructId_length]
    exact hmax
  · rw [constructId_length]
    unfold constructId
    split
    · simp_all [capacity]
    · cases s with
      | legacy =>
          simp only [capacity, List.length_append, hlen, List.length_replicate]
          unfold kQuicMaxConnectionIdLength at *
          omega
      | hybrid =>
          dsimp only
          unfold capacity shortCapacity at *
          split <;>
            simp_all [List.length_append, List.length_replicate]

/-- Whatever the strategy or transition, `set_length` assigns `length_`. -/
theorem set_length_length (s : Strategy) (x : QuicConnectionId) (L junk : Nat) :
    (set_length s x L junk).length_ = L := by
  cases s with
  | legacy => rfl
  | hybrid =>
      unfold set_length
      dsimp only
      split
      · split <;> rfl
      · split <;> rfl

/-- On a well-formed state, `Hash` is the spec's abstract formula applied to
the observable `(bytes, length)` pair. -/
theorem hash_eq_hashFormula (s : Strategy) (x : QuicConnectionId) (h : WF s x) :
    Hash s x = hashFormula (dataView s x) x.length_ := by
  have hv : (dataView s x).length = x.length_ := dataView_length s x h
  simp only [Hash, hashFormula, dataView] at hv ⊢
  rw [hv]

/-- Strict `memcmp` comparison is asymmetric. -/
theorem bytesLt_asymm : ∀ a b : List Nat, bytesLt a b = true → bytesLt b a = false
  | [], [], h => by simp [bytesLt] at h
  | [], _ :: _, _ => by simp [bytesLt]
  | _ :: _, [], h => by simp [bytesLt] at h
  | a :: as, b :: bs, h => by
      by_cases h1 : a < b
      · have h2 : ¬b < a := by omega
        simp [bytesLt, h1, h2]
      · by_cases h2 : b < a
        · simp [bytesLt, h1, h2] at h
        · simp only [bytesLt, if_neg h1, if_neg h2] at h
          simp only [bytesLt, if_neg h2, if_neg h1]
          exact bytesLt_asymm as bs h

/-- Two byte lists are equal exactly when the strict `memcmp` comparison
fails in both directions. -/
theorem bytesLt_eq_iff : ∀ a b : List Nat,
    a = b ↔ (bytesLt a b = false ∧ bytesLt b a = false)
  | [], [] => by simp [bytesLt]
  | [], _ :: _ => by simp [bytesLt]
  | _ :: _, [] => by simp [bytesLt]
  | a :: as, b :: bs => by
      by_cases h1 : a < b
      · have h2 : ¬b < a := by omega
        have hne : a ≠ b := by omega
        simp [bytesLt, h1, h2, hne]
      · by_cases h2 : b < a
        · have hne : a ≠ b := by omega
          simp [bytesLt, h1, h2, hne]
        · have hab : a = b := by omega
          subst hab
          simp only [bytesLt, if_neg h1, List.cons.injEq, true_and]
          exact bytesLt_eq_iff as bs

/-- Strict `memcmp` comparison coincides with Mathlib's lexicographic strict
order on byte lists. -/
theorem bytesLt_iff_lex : ∀ a b : List Nat,
    bytesLt a b = true ↔ List.Lex (· < ·) a b
  | [], [] => by simp [bytesLt]
  | [], b :: bs => by
      simp only [bytesLt, true_iff]
      exact List.Lex.nil
  | _ :: _, [] => by simp [bytesLt]
  | a :: as, b :: bs => by
      by_cases h1 : a < b
      · simp only [bytesLt, if_pos h1, true_iff]
        exact List.Lex.rel h1
      · by_cases h2 : b < a
        · simp only [bytesLt, if_neg h1, if_pos h2]
          constructor
          · intro h
            exact absurd h (by simp)
          · intro hlex
            cases hlex with
            | cons h3 => exact absurd h2 (by omega)
            | rel h3 => exact absurd h3 h1
        · have hab : a = b := by omega
          subst hab
          simp only [bytesLt, if_neg h1]
          rw [bytesLt_iff_lex as bs]
          exact Iff.symm List.Lex.cons_iff

/-- Characterization of `operator==`: equality of the length and of the
observable byte view. -/
theorem beq_eq_iff (s : Strategy) (x y : QuicConnectionId) :
    beq s x y = true ↔ x.length_ = y.length_ ∧ dataView s x = dataView s y := by
  unfold beq dataView
  rw [Bool.and_eq_true, beq_iff_eq, beq_iff_eq]
  constructor
  · rintro ⟨h1, h2⟩
    rw [h1] at h2 ⊢
    exact ⟨rfl, h2⟩
  · rintro ⟨h1, h2⟩
    rw [h1] at h2 ⊢
    exact ⟨rfl, h2⟩

/-- The boolean `operator==` is symmetric. -/
theorem beq_symm (s : Strategy) (x y : QuicConnectionId) :
    beq s x y = beq s y x := by
  rw [Bool.eq_iff_iff, beq_eq_iff, beq_eq_iff]
  constructor
  · rintro ⟨h1, h2⟩
    exact ⟨h1.symm, h2.symm⟩
  · rintro ⟨h1, h2⟩
    exact ⟨h1.symm, h2.symm⟩

/-- Dispatch shape shared by the storage-transition branches: a preserved
prefix followed by an empty junk tail. -/
theorem take_append_replicate_eq (B : List Nat) (junk A R C : Nat)
    (hR : R = 0) (hAC : A = C) :
    B.take A ++ List.replicate R junk = B.take C := by
  subst hR hAC
  simp

/-! ### Claim theorems -/

/-- Claim C1: for every identifier of length `L1` (well-formed, with `L1 ≤
MAX`) and every new length `L2 ≤ MAX`, `set_length(L2)` sets `length()` to
`L2` and leaves the first `min(L1, L2)` bytes of the `data()` view unchanged
— across the four hybrid storage transitions (the four branches of the
source) and under the legacy strategy, which performs no transition. -/
theorem setLength_correct (s : Strategy) (x : QuicConnectionId) (L2 junk : Nat)
    (hx : WF s x) (_h2 : L2 ≤ kQuicMaxConnectionIdLength) :
    (set_length s x L2 junk).length_ = L2 ∧
      (dataView s (set_length s x L2 junk)).take (min x.length_ L2) =
        (dataView s x).take (min x.length_ L2) := by
  obtain ⟨h1, hcap⟩ := hx
  refine ⟨set_length_length s x L2 junk, ?_⟩
  cases s with
  | legacy =>
      simp only [set_length, dataView, data_eq, List.take_take]
      congr 1
      omega
  | hybrid =>
      simp only [capacity] at hcap
      simp only [set_length]
      split_ifs with hA hB hC
      · rw [if_pos hB] at hcap
        simp only [dataView, data_eq, List.take_take, List.take_append_eq_append_take,
          List.length_take, List.take_replicate]
        exact take_append_replicate_eq _ _ _ _ _ (by omega) (by omega)
      · rw [if_neg hB] at hcap
        simp only [dataView, data_eq, List.take_take, List.take_append_eq_append_take,
          List.length_take, List.take_replicate]
        exact take_append_replicate_eq _ _ _ _ _ (by omega) (by omega)
      · rw [if_neg (by omega : ¬x.length_ ≤ shortCapacity)] at hcap
        simp only [dataView, data_eq, List.take_take, List.take_append_eq_append_take,
          List.length_take, List.take_replicate]
        exact take_append_replicate_eq _ _ _ _ _ (by omega) (by omega)
      · simp only [dataView, data_eq, List.take_take]
        congr 1
        omega

/-- Witness for C1 at a concrete heap-to-inline transition. -/
theorem setLength_correct_witness :
    (WF .hybrid cid12 ∧ 4 ≤ kQuicMaxConnectionIdLength) ∧
      ((set_length .hybrid cid12 4 3).length_ = 4 ∧
        (dataView .hybrid (set_length .hybrid cid12 4 3)).take (min cid12.length_ 4) =
          (dataView .hybrid cid12).take (min cid12.length_ 4)) :=
  ⟨⟨by decide, by decide⟩, setLength_correct .hybrid cid12 4 3 (by decide) (by decide)⟩

/-- Claim C2 counterexample: `set_length` performs no clamp, so the public
operation sequence "construct empty, then setLength(25)" leaves the
identifier with `length() = 25 > MAX`. -/
theorem length_can_exceed_max :
    kQuicMaxConnectionIdLength <
      (set_length .hybrid (construct .hybrid [] 0 0).fst 25 0).length_ := by
  decide

/-- Claim C2 (amended): `length()` stays bounded by MAX under construction
from any buffer and requested length (oversize requests are clamped), copy,
assignment from an identifier whose length respects MAX, and `set_length`
with any argument that is at most MAX. -/
theorem length_le_max_amended (s : Strategy) (junk : Nat) :
    (∀ (d : List Nat) (L : Nat),
        (construct s d L junk).fst.length_ ≤ kQuicMaxConnectionIdLength) ∧
    (∀ x : QuicConnectionId,
        (copy s x junk).length_ ≤ kQuicMaxConnectionIdLength) ∧
    (∀ x y : QuicConnectionId, y.length_ ≤ kQuicMaxConnectionIdLength →
        (assign s x y junk).length_ ≤ kQuicMaxConnectionIdLength) ∧
    (∀ (x : QuicConnectionId) (L : Nat), L ≤ kQuicMaxConnectionIdLength →
        (set_length s x L junk).length_ ≤ kQuicMaxConnectionIdLength) := by
  have hcon : ∀ (d : List Nat) (L : Nat),
      (construct s d L junk).fst.length_ ≤ kQuicMaxConnectionIdLength := by
    intro d L
    show (constructId s d (clampLen L) junk).length_ ≤ kQuicMaxConnectionIdLength
    rw [constructId_length, clampLen_eq]
    omega
  refine ⟨hcon, fun x => hcon _ _, ?_, ?_⟩
  · intro x y hy
    show (set_length s x y.length_ junk).length_ ≤ kQuicMaxConnectionIdLength
    rw [set_length_length]
    exact hy
  · intro x L hL
    rw [set_length_length]
    exact hL

/-- Witness for the amended C2 at a concrete `set_length` call. -/
theorem length_le_max_amended_witness :
    9 ≤ kQuicMaxConnectionIdLength ∧
      (set_length .hybrid cidEmpty 9 0).length_ ≤ kQuicMaxConnectionIdLength :=
  ⟨by decide, (length_le_max_amended .hybrid 0).2.2.2 cidEmpty 9 (by decide)⟩

/-- Claim C3: `Hash()` computes exactly the spec's formula — zero-pad the
bytes into three 64-bit words, XOR them with the length and the fixed
default-length constant, reinterpret big-endian-to-host — and on the
identifier built from bytes `0x01..0x08` with length 8 it returns the
big-endian-to-host reinterpretation of those eight bytes,
`0x0102030405060708` (the two length terms cancel). -/
theorem hash_matches_spec_formula :
    (∀ (s : Strategy) (x : QuicConnectionId), WF s x →
        Hash s x = hashFormula (dataView s x) x.length_) ∧
    (∀ (s : Strategy) (junk : Nat),
        Hash s (construct s cid8bytes 8 junk).fst = beHost64 cid8bytes) ∧
    beHost64 cid8bytes = 0x0102030405060708 :=
  ⟨fun s x h => hash_eq_hashFormula s x h,
    fun s junk => by
      have h8 : (8 : Nat) ≤ cid8bytes.length := by decide
      have hfst : (construct s cid8bytes 8 junk).fst = constructId s cid8bytes 8 junk := by
        show constructId s cid8bytes (clampLen 8) junk = _
        rw [show clampLen 8 = 8 from by decide]
      have hWF : WF s (constructId s cid8bytes 8 junk) :=
        constructId_WF s cid8bytes 8 junk h8 (by decide)
      rw [hfst, hash_eq_hashFormula s _ hWF, constructId_dataView s cid8bytes 8 junk h8,
        constructId_length]
      decide,
    by decide⟩

/-- Witness for C3 on the concrete 8-byte sample identifier. -/
theorem hash_matches_spec_formula_witness :
    WF .hybrid cidSample ∧
      Hash .hybrid cidSample =
        hashFormula (dataView .hybrid cidSample) cidSample.length_ :=
  ⟨by decide, hash_matches_spec_formula.1 .hybrid cidSample (by decide)⟩

/-- Claim C4: `operator<` holds iff the left identifier is strictly shorter,
or the lengths are equal and the byte views compare strictly less in the
unsigned byte-wise lexicographic order; in particular any length-3
identifier sorts before any length-5 identifier, whatever the bytes. -/
theorem lt_iff_shorter_or_lex (s : Strategy) (x y : QuicConnectionId) :
    (lt s x y = true ↔
        x.length_ < y.length_ ∨
          (x.length_ = y.length_ ∧
            List.Lex (· < ·) (dataView s x) (dataView s y))) ∧
    (x.length_ = 3 → y.length_ = 5 → lt s x y = true) := by
  constructor
  · unfold lt
    split_ifs with hlt hgt
    · simp only [true_iff]
      exact Or.inl hlt
    · constructor
      · intro h
        exact absurd h (by simp)
      · rintro (h | ⟨h, -⟩) <;> omega
    · have heq : x.length_ = y.length_ := by omega
      rw [bytesLt_iff_lex]
      unfold dataView
      rw [← heq]
      constructor
      · intro h
        exact Or.inr ⟨rfl, h⟩
      · rintro (h | ⟨-, h⟩)
        · omega
        · exact h
  · intro h3 h5
    unfold lt
    rw [h3, h5]
    rfl

/-- Witness for C4 at concrete identifiers of lengths 3 and 5. -/
theorem lt_iff_shorter_or_lex_witness :
    cid3.length_ = 3 ∧ cid5.length_ = 5 ∧ lt .hybrid cid3 cid5 = true :=
  ⟨by decide, by decide,
    (lt_iff_shorter_or_lex .hybrid cid3 cid5).2 (by decide) (by decide)⟩

/-- Claim C5: `operator==` is equivalent to equality of the `(length,
bytes)` pair, for any strategy (hence independent of storage mode), and is
reflexive, symmetric and transitive. -/
theorem eq_iff_length_and_bytes :
    (∀ (s : Strategy) (x y : QuicConnectionId),
        beq s x y = true ↔ x.length_ = y.length_ ∧ dataView s x = dataView s y) ∧
    (∀ (s : Strategy) (x : QuicConnectionId), beq s x x = true) ∧
    (∀ (s : Strategy) (x y : QuicConnectionId), beq s x y = beq s y x) ∧
    (∀ (s : Strategy) (x y z : QuicConnectionId),
        beq s x y = true → beq s y z = true → beq s x z = true) := by
  refine ⟨beq_eq_iff, fun s x => (beq_eq_iff s x x).mpr ⟨rfl, rfl⟩, beq_symm, ?_⟩
  intro s x y z hxy hyz
  obtain ⟨h1, h2⟩ := (beq_eq_iff s x y).mp hxy
  obtain ⟨h3, h4⟩ := (beq_eq_iff s y z).mp hyz
  exact (beq_eq_iff s x z).mpr ⟨h1.trans h3, h2.trans h4⟩

/-- Witness for C5: transitivity applied at a concrete identifier. -/
theorem eq_iff_length_and_bytes_witness :
    beq .hybrid cidSample cidSample = true :=
  eq_iff_length_and_bytes.2.2.2 .hybrid cidSample cidSample cidSample
    (by decide) (by decide)

/-- Claim C6: constructing from a buffer `b` with requested length `len(b) ≤
MAX` yields `length() = len(b)` and a `data()` view equal to `b`, under both
strategies, inline or heap. -/
theorem construct_roundtrip (s : Strategy) (b : List Nat) (junk : Nat)
    (h : b.length ≤ kQuicMaxConnectionIdLength) :
    (construct s b b.length junk).fst.length_ = b.length ∧
      dataView s (construct s b b.length junk).fst = b := by
  have hcl : clampLen b.length = b.length := by
    rw [clampLen_eq]
    omega
  constructor
  · show (constructId s b (clampLen b.length) junk).length_ = b.length
    rw [hcl, constructId_length]
  · show dataView s (constructId s b (clampLen b.length) junk) = b
    rw [hcl, constructId_dataView s b b.length junk le_rfl, List.take_length]

/-- Witness for C6 at a 12-byte buffer (heap storage under hybrid). -/
theorem construct_roundtrip_witness :
    cid12bytes.length ≤ kQuicMaxConnectionIdLength ∧
      ((construct .hybrid cid12bytes cid12bytes.length 7).fst.length_ =
          cid12bytes.length ∧
        dataView .hybrid (construct .hybrid cid12bytes cid12bytes.length 7).fst =
          cid12bytes) :=
  ⟨by decide, construct_roundtrip .hybrid cid12bytes 7 (by decide)⟩

/-- Claim C7: an oversize construction request (length above MAX, still a
valid `uint8_t`) succeeds without surfacing an error: the diagnostic fires,
the length is clamped to MAX, and exactly MAX bytes of the input buffer are
stored. -/
theorem construct_oversize_clamps (s : Strategy) (d : List Nat) (L junk : Nat)
    (hL : kQuicMaxConnectionIdLength < L) (_hL255 : L ≤ 255) :
    (construct s d L junk).snd = true ∧
      (construct s d L junk).fst.length_ = kQuicMaxConnectionIdLength ∧
      dataView s (construct s d L junk).fst = d.take kQuicMaxConnectionIdLength := by
  have hcl : clampLen L = kQuicMaxConnectionIdLength := by
    rw [clampLen_eq]
    omega
  refine ⟨?_, ?_, ?_⟩
  · show decide (L > kQuicMaxConnectionIdLength) = true
    exact decide_eq_true hL
  · show (constructId s d (clampLen L) junk).length_ = _
    rw [hcl, constructId_length]
  · show dataView s (constructId s d (clampLen L) junk) = _
    rw [hcl, constructId_dataView_max]

/-- Witness for C7 at `construct(25-byte buffer, MAX + 5)`. -/
theorem construct_oversize_clamps_witness :
    (kQuicMaxConnectionIdLength < 25 ∧ 25 ≤ 255) ∧
      ((construct .legacy d25 25 9).snd = true ∧
        (construct .legacy d25 25 9).fst.length_ = kQuicMaxConnectionIdLength ∧
        dataView .legacy (construct .legacy d25 25 9).fst =
          d25.take kQuicMaxConnectionIdLength) :=
  ⟨⟨by decide, by decide⟩,
    construct_oversize_clamps .legacy d25 25 9 (by decide) (by decide)⟩

/-- Claim C8: `ToString` renders the empty identifier as the single
character "0" and any other identifier as the lowercase two-digit-per-byte
hex encoding of exactly its `length()` bytes; the spec's 8-byte scenario
renders as "0102030405060708". -/
theorem toString_spec :
    (∀ (s : Strategy) (x : QuicConnectionId), x.length_ = 0 → ToString s x = "0") ∧
    (∀ (s : Strategy) (x : QuicConnectionId), x.length_ ≠ 0 →
        ToString s x = hexEncode (dataView s x)) ∧
    (∀ (s : Strategy) (junk : Nat),
        ToString s (construct s cid8bytes 8 junk).fst = "0102030405060708") := by
  refine ⟨?_, ?_, ?_⟩
  · intro s x h
    simp [ToString, IsEmpty, h]
  · intro s x h
    simp [ToString, IsEmpty, dataView, h]
  · intro s junk
    cases s <;> rfl

/-- Witness for C8 at the empty identifier. -/
theorem toString_spec_witness :
    cidEmpty.length_ = 0 ∧ ToString .hybrid cidEmpty = "0" :=
  ⟨by decide, toString_spec.1 .hybrid cidEmpty (by decide)⟩

/-- Claim C9: `Hash` depends only on the observable `(length, bytes)` pair:
a copy hashes identically, and identifiers with equal views hash identically
across strategies and storage modes. -/
theorem hash_depends_only_on_view :
    (∀ (s : Strategy) (x : QuicConnectionId) (junk : Nat), WF s x →
        Hash s (copy s x junk) = Hash s x) ∧
    (∀ (s₁ s₂ : Strategy) (x y : QuicConnectionId), WF s₁ x → WF s₂ y →
        x.length_ = y.length_ → dataView s₁ x = dataView s₂ y →
        Hash s₁ x = Hash s₂ y) := by
  have key : ∀ (s₁ s₂ : Strategy) (x y : QuicConnectionId), WF s₁ x → WF s₂ y →
      x.length_ = y.length_ → dataView s₁ x = dataView s₂ y →
      Hash s₁ x = Hash s₂ y := by
    intro s₁ s₂ x y hx hy hlen hview
    rw [hash_eq_hashFormula s₁ x hx, hash_eq_hashFormula s₂ y hy, hlen, hview]
  refine ⟨?_, key⟩
  intro s x junk hx
  obtain ⟨h1, hcap⟩ := hx
  have hblen : x.length_ ≤ x.buf.length := by
    rw [hcap]
    exact length_le_capacity s x.length_ h1
  have hcl : clampLen x.length_ = x.length_ := by
    rw [clampLen_eq]
    omega
  have hfst : copy s x junk = constructId s x.buf x.length_ junk := by
    show constructId s (data s x) (clampLen x.length_) junk = _
    rw [data_eq, hcl]
  apply key
  · rw [hfst]
    exact constructId_WF s x.buf x.length_ junk hblen h1
  · exact ⟨h1, hcap⟩
  · rw [hfst, constructId_length]
  · rw [hfst, constructId_dataView s x.buf x.length_ junk hblen]
    simp [dataView, data_eq]

/-- Witness for C9: a copy of the sample identifier hashes identically. -/
theorem hash_depends_only_on_view_witness :
    WF .hybrid cidSample ∧
      Hash .hybrid (copy .hybrid cidSample 5) = Hash .hybrid cidSample :=
  ⟨by decide, hash_depends_only_on_view.1 .hybrid cidSample 5 (by decide)⟩

/-- Claim C10: the ordering is trichotomous — `operator<` is asymmetric and
two identifiers are incomparable under it exactly when `operator==` holds —
and `operator!=` is the boolean negation of `operator==`. -/
theorem ordering_trichotomy :
    (∀ (s : Strategy) (x y : QuicConnectionId),
        ¬(lt s x y = true ∧ lt s y x = true)) ∧
    (∀ (s : Strategy) (x y : QuicConnectionId),
        beq s x y = true ↔ lt s x y = false ∧ lt s y x = false) ∧
    (∀ (s : Strategy) (x y : QuicConnectionId), ne s x y = !beq s x y) := by
  refine ⟨?_, ?_, ?_⟩
  · rintro s x y ⟨h1, h2⟩
    unfold lt at h1 h2
    rcases Nat.lt_trichotomy x.length_ y.length_ with h | h | h
    · rw [if_neg (by omega : ¬y.length_ < x.length_), if_pos h] at h2
      exact absurd h2 (by simp)
    · rw [if_neg (by omega : ¬x.length_ < y.length_),
        if_neg (by omega : ¬y.length_ < x.length_)] at h1
      rw [if_neg (by omega : ¬y.length_ < x.length_),
        if_neg (by omega : ¬x.length_ < y.length_), ← h] at h2
      rw [bytesLt_asymm _ _ h1] at h2
      exact absurd h2 (by simp)
    · rw [if_neg (by omega : ¬x.length_ < y.length_), if_pos h] at h1
      exact absurd h1 (by simp)
  · intro s x y
    rw [beq_eq_iff]
    unfold lt dataView
    rcases Nat.lt_trichotomy x.length_ y.length_ with h | h | h
    · simp only [if_pos h, if_neg (by omega : ¬y.length_ < x.length_)]
      constructor
      · rintro ⟨hl, -⟩
        exact absurd hl (by omega)
      · rintro ⟨hh, -⟩
        exact absurd hh (by simp)
    · simp only [if_neg (by omega : ¬x.length_ < y.length_),
        if_neg (by omega : ¬y.length_ < x.length_)]
      rw [← h, ← bytesLt_eq_iff]
      simp
    · simp only [if_pos h, if_neg (by omega : ¬x.length_ < y.length_)]
      constructor
      · rintro ⟨hl, -⟩
        exact absurd hl (by omega)
      · rintro ⟨-, hh⟩
        exact absurd hh (by simp)
  · intro s x y
    unfold ne
    rw [beq_symm]

/-- Witness for C10 at concrete identifiers. -/
theorem ordering_trichotomy_witness :
    (beq .hybrid cid3 cid5 = true ↔
        lt .hybrid cid3 cid5 = false ∧ lt .hybrid cid5 cid3 = false) ∧
      ne .hybrid cid3 cid5 = !beq .hybrid cid3 cid5 :=
  ⟨ordering_trichotomy.2.1 .hybrid cid3 cid5,
    ordering_trichotomy.2.2 .hybrid cid3 cid5⟩

end QuicSpec
